import Mathlib

/-!
Shallow embedding of the `cltkv1` embeddings and wordnet `Process` modules
(`src/cltkv1/embeddings/processes.py` and `src/cltkv1/wordnet/processes.py`).

Modelling choices:
* A numeric vector (numpy `ndarray`) is a `List Int`; a backend lookup result
  is `Option (List Int)` where `none` models any non-`ndarray` return value
  (including the backend's "not found" signal).
* The embedding backend objects (`FastTextEmbeddings`, `Word2VecEmbeddings`)
  are external collaborators; their observable behaviour during `run` is a
  `BackendBehavior` record supplying `get_embedding_length` and
  `get_word_vector`.
* `boltons.cacheutils.cachedproperty` is modelled by an explicit
  `cachedAlgorithm` field: the property body runs only when the field is
  `none`, and its successful result is stored; an exception is not cached.
* Object identity of constructed backend handles is modelled by an
  allocation counter threaded through a `ResolverState`; each constructor
  invocation yields a fresh identifier and bumps a construction counter.
* Python truthiness of `if not embedding_length` is modelled by `pyFalsy`:
  both `None` and `0` are falsy.
* Exceptions (`CLTKException`) are modelled with `Except String`.
-/

/-- A token record: `Word` with its `string` field and its mutable
`embedding` field (initially unset). -/
structure Word where
  string : String
  embedding : Option (List Int) := none
deriving Repr, DecidableEq

/-- A document: raw text plus the ordered sequence of `Word` records. -/
structure Doc where
  raw : String := ""
  words : List Word := []
deriving Repr, DecidableEq

/-- Allocation / instrumentation state for backend construction: a fresh-id
counter and a count of backend constructor invocations. -/
structure ResolverState where
  nextId : Nat := 0
  constructions : Nat := 0
deriving Repr, DecidableEq

/-- A resolved embeddings backend handle: `FastTextEmbeddings(iso_code=...)`
or `Word2VecEmbeddings(iso_code=...)`, tagged with its allocation id. -/
inductive Handle where
  | fastTextH (id : Nat) (isoCode : Option String)
  | word2VecH (id : Nat) (isoCode : Option String)
deriving Repr, DecidableEq

/-- The allocation id of a handle (object identity). -/
def Handle.hid : Handle → Nat
  | .fastTextH i _ => i
  | .word2VecH i _ => i

/-- `valid_variants = ["fasttext", "nlpl"]` from `EmbeddingsProcess.algorithm`. -/
def validVariants : List String := ["fasttext", "nlpl"]

/-- The body of the `algorithm` cached property of `EmbeddingsProcess`:
dispatch on `variant`, constructing the corresponding backend, or raise
`CLTKException` for an unsupported variant. -/
def computeAlgorithm (language : Option String) (variant : String)
    (st : ResolverState) : Except String Handle × ResolverState :=
  if variant = "fasttext" then
    (Except.ok (Handle.fastTextH st.nextId language),
      { st with nextId := st.nextId + 1, constructions := st.constructions + 1 })
  else if variant = "nlpl" then
    (Except.ok (Handle.word2VecH st.nextId language),
      { st with nextId := st.nextId + 1, constructions := st.constructions + 1 })
  else
    (Except.error ("Invalid embeddings ``variant`` ``" ++ variant ++
      "``. Available: '" ++ String.intercalate "', '" validVariants ++ "'."), st)

/-- The `EmbeddingsProcess` dataclass: configuration fields, the bound
input/output documents, and the `cachedproperty` cache slot. -/
structure EmbeddingsProcess where
  input_doc : Doc
  output_doc : Option Doc := none
  description : Option String := none
  language : Option String := none
  variant : String := "fasttext"
  cachedAlgorithm : Option Handle := none
deriving Repr, DecidableEq

/-- The `algorithm` cached property: return the cached handle if present,
otherwise run `computeAlgorithm` and cache a successful result (an
exception is propagated and nothing is cached). -/
def EmbeddingsProcess.algorithm (p : EmbeddingsProcess) (st : ResolverState) :
    Except String Handle × EmbeddingsProcess × ResolverState :=
  match p.cachedAlgorithm with
  | some h => (Except.ok h, p, st)
  | none =>
    match computeAlgorithm p.language p.variant st with
    | (Except.ok h, st') => (Except.ok h, { p with cachedAlgorithm := some h }, st')
    | (Except.error e, st') => (Except.error e, p, st')

/-- Observable behaviour of a resolved embeddings backend object:
`get_embedding_length()` and `get_word_vector(word=...)`; a `none` lookup
result models any non-`ndarray` return (including "not found"). -/
structure BackendBehavior where
  getEmbeddingLength : Nat
  getWordVector : String → Option (List Int)

/-- Python truthiness test used by `if not embedding_length`: `None` and
`0` are falsy. -/
def pyFalsy : Option Nat → Bool
  | none => true
  | some n => n = 0

/-- The `for index, word_obj in enumerate(tmp_doc.words)` loop of
`EmbeddingsProcess.run`, threading the `embedding_length` local variable and
counting the calls to `get_embedding_length` and `get_word_vector`.
Returns the updated word list, the final `embedding_length`, the number of
length queries and the number of vector lookups. -/
def runLoop (beh : BackendBehavior) (embLen : Option Nat) :
    List Word → List Word × Option Nat × Nat × Nat
  | [] => ([], embLen, 0, 0)
  | w :: ws =>
    let embLen1 := if pyFalsy embLen then some beh.getEmbeddingLength else embLen
    let lenInc : Nat := if pyFalsy embLen then 1 else 0
    let vec : List Int :=
      match beh.getWordVector w.string with
      | some v => v
      | none => List.replicate (embLen1.getD 0) 0
    let w1 : Word := { w with embedding := some vec }
    let rest := runLoop beh embLen1 ws
    (w1 :: rest.1, rest.2.1, lenInc + rest.2.2.1, 1 + rest.2.2.2)

/-- Instrumentation of one `run` call: how often the backend's
`get_embedding_length` and `get_word_vector` were invoked. -/
structure RunTrace where
  lengthCalls : Nat
  lookupCalls : Nat
deriving Repr, DecidableEq

/-- `EmbeddingsProcess.run`: resolve `self.algorithm` (an invalid variant
raises here), then walk the words of `self.input_doc`, writing each word's
embedding in place, and set `self.output_doc` to the (mutated) document.
Because the mutation is in place, the process's `input_doc` reflects it as
well. -/
def EmbeddingsProcess.run (beh : BackendBehavior) (p : EmbeddingsProcess)
    (st : ResolverState) :
    Except String (EmbeddingsProcess × RunTrace) × ResolverState :=
  match EmbeddingsProcess.algorithm p st with
  | (Except.error e, _, st') => (Except.error e, st')
  | (Except.ok _, p1, st') =>
    let r := runLoop beh none p1.input_doc.words
    let newDoc : Doc := { p1.input_doc with words := r.1 }
    (Except.ok ({ p1 with input_doc := newDoc, output_doc := some newDoc },
      ⟨r.2.2.1, r.2.2.2⟩), st')

/-- The per-word transformation actually effected by the loop body: the
word's embedding becomes the backend vector, or a zero vector of the
backend's reported length on a lookup miss. -/
def embedWord (beh : BackendBehavior) (w : Word) : Word :=
  let vec : List Int :=
    match beh.getWordVector w.string with
    | some v => v
    | none => List.replicate beh.getEmbeddingLength 0
  { w with embedding := some vec }

/-! Language-specific presets (`ArabicEmbeddingsProcess` ... ), each a
dataclass subclass fixing `description`, `language` and, for Greek only,
`variant`. -/

/-- `ArabicEmbeddingsProcess`. -/
def ArabicEmbeddingsProcess (input : Doc) : EmbeddingsProcess :=
  { input_doc := input, description := some "Default embeddings for Arabic.",
    language := some "arb" }

/-- `AramaicEmbeddingsProcess` (note: its `language` field is `"arb"` in the
source). -/
def AramaicEmbeddingsProcess (input : Doc) : EmbeddingsProcess :=
  { input_doc := input, description := some "Default embeddings for Aramaic.",
    language := some "arb" }

/-- `GothicEmbeddingsProcess`. -/
def GothicEmbeddingsProcess (input : Doc) : EmbeddingsProcess :=
  { input_doc := input, description := some "Default embeddings for Gothic.",
    language := some "got" }

/-- `GreekEmbeddingsProcess`: the only preset overriding `variant`. -/
def GreekEmbeddingsProcess (input : Doc) : EmbeddingsProcess :=
  { input_doc := input, language := some "grc",
    description := some "Default embeddings for Ancient Greek.",
    variant := "nlpl" }

/-- `LatinEmbeddingsProcess`. -/
def LatinEmbeddingsProcess (input : Doc) : EmbeddingsProcess :=
  { input_doc := input, language := some "lat",
    description := some "Default embeddings for Latin." }

/-- `OldEnglishEmbeddingsProcess`. -/
def OldEnglishEmbeddingsProcess (input : Doc) : EmbeddingsProcess :=
  { input_doc := input, description := some "Default embeddings for Old English.",
    language := some "ang" }

/-- `PaliEmbeddingsProcess`. -/
def PaliEmbeddingsProcess (input : Doc) : EmbeddingsProcess :=
  { input_doc := input, description := some "Default embeddings for Pali.",
    language := some "pli" }

/-- `SanskritEmbeddingsProcess`. -/
def SanskritEmbeddingsProcess (input : Doc) : EmbeddingsProcess :=
  { input_doc := input, description := some "Default embeddings for Sanskrit.",
    language := some "san" }

/-! WordNet process (`src/cltkv1/wordnet/processes.py`). -/

/-- A constructed `WordNetCorpusReader(language)` handle, tagged with its
allocation id. -/
structure WordNetCorpusReader where
  hid : Nat
  code : String
deriving Repr, DecidableEq

/-- The `WordNetProcess` dataclass with its `cachedproperty` cache slot
(the cached value may itself be `none`: the property can return `None`). -/
structure WordNetProcess where
  input_doc : Doc
  output_doc : Option Doc := none
  description : Option String := none
  language : Option String := none
  cachedAlgorithm : Option (Option WordNetCorpusReader) := none
deriving Repr, DecidableEq

/-- Body of `WordNetProcess.algorithm`: translate the process language to a
WordNet corpus code (`"lat"→"lat"`, `"grc"→"grk"`, `"san"→"skt"`),
construct a reader when one matched, otherwise fall through returning
`None`. -/
def computeWordNetAlgorithm (lang : Option String) (st : ResolverState) :
    Option WordNetCorpusReader × ResolverState :=
  let language : Option String :=
    if lang = some "lat" then some "lat"
    else if lang = some "grc" then some "grk"
    else if lang = some "san" then some "skt"
    else none
  match language with
  | some code =>
    (some ⟨st.nextId, code⟩,
      { st with nextId := st.nextId + 1, constructions := st.constructions + 1 })
  | none => (none, st)

/-- The `algorithm` cached property of `WordNetProcess`. -/
def WordNetProcess.algorithm (p : WordNetProcess) (st : ResolverState) :
    Option WordNetCorpusReader × WordNetProcess × ResolverState :=
  match p.cachedAlgorithm with
  | some r => (r, p, st)
  | none =>
    let r := computeWordNetAlgorithm p.language st
    (r.1, { p with cachedAlgorithm := some r.1 }, r.2)

/-- `WordNetProcess.run`: the body is `pass`, so the process (and every
document it references) is unchanged. -/
def WordNetProcess.run (p : WordNetProcess) : WordNetProcess := p

/-! Concrete sample data used to exercise the theorems on closed inputs
(the spec's end-to-end example: tokens `["a", "b"]`, backend vector
`[1, 0]` for `"a"`, "not found" for `"b"`). -/

/-- Sample backend: vector length 2, knows only the token `"a"`. -/
def sampleBeh : BackendBehavior :=
  { getEmbeddingLength := 2,
    getWordVector := fun s => if s = "a" then some [1, 0] else none }

/-- Sample two-token document. -/
def sampleDoc : Doc := { raw := "a b", words := [{ string := "a" }, { string := "b" }] }

/-- Sample embeddings process over `sampleDoc` with the default variant. -/
def sampleProcess : EmbeddingsProcess := { input_doc := sampleDoc }

/-- A backend that reports vector length `0` (falsy in Python) and finds
no token. -/
def zeroLenBeh : BackendBehavior :=
  { getEmbeddingLength := 0, getWordVector := fun _ => none }

/-- A backend that returns the vector `[1, 0]` for every token. -/
def hitBeh : BackendBehavior :=
  { getEmbeddingLength := 2, getWordVector := fun _ => some [1, 0] }

/-- Occurrence of `pat` as a contiguous substring of `s`. -/
def strOccurs (pat s : String) : Prop := ∃ a b, s = a ++ pat ++ b

/-! ### Helper lemmas about the resolver -/

theorem algorithm_cached (p : EmbeddingsProcess) (st : ResolverState) (h : Handle)
    (hc : p.cachedAlgorithm = some h) :
    EmbeddingsProcess.algorithm p st = (Except.ok h, p, st) := by
  simp [EmbeddingsProcess.algorithm, hc]

theorem algorithm_fresh_fasttext (p : EmbeddingsProcess) (st : ResolverState)
    (hv : p.variant = "fasttext") (hc : p.cachedAlgorithm = none) :
    EmbeddingsProcess.algorithm p st =
      (Except.ok (Handle.fastTextH st.nextId p.language),
       { p with cachedAlgorithm := some (Handle.fastTextH st.nextId p.language) },
       { st with nextId := st.nextId + 1, constructions := st.constructions + 1 }) := by
  simp [EmbeddingsProcess.algorithm, computeAlgorithm, hc, hv]

theorem algorithm_fresh_nlpl (p : EmbeddingsProcess) (st : ResolverState)
    (hv : p.variant = "nlpl") (hc : p.cachedAlgorithm = none) :
    EmbeddingsProcess.algorithm p st =
      (Except.ok (Handle.word2VecH st.nextId p.language),
       { p with cachedAlgorithm := some (Handle.word2VecH st.nextId p.language) },
       { st with nextId := st.nextId + 1, constructions := st.constructions + 1 }) := by
  simp [EmbeddingsProcess.algorithm, computeAlgorithm, hc, hv]

theorem set_cached_self (p : EmbeddingsProcess) (h : Handle)
    (hc : p.cachedAlgorithm = some h) :
    ({ p with cachedAlgorithm := some h } : EmbeddingsProcess) = p := by
  cases p
  simp_all

theorem algorithm_ok_of_valid (p : EmbeddingsProcess) (st : ResolverState)
    (hvar : p.variant ∈ validVariants) :
    ∃ h st', EmbeddingsProcess.algorithm p st =
      (Except.ok h, { p with cachedAlgorithm := some h }, st') ∧
      st'.nextId = st.nextId + (if p.cachedAlgorithm = none then 1 else 0) ∧
      st'.constructions = st.constructions + (if p.cachedAlgorithm = none then 1 else 0) := by
  cases hc : p.cachedAlgorithm with
  | some h =>
    refine ⟨h, st, ?_⟩
    rw [set_cached_self p h hc, algorithm_cached p st h hc]
    simp [hc]
  | none =>
    rcases List.mem_pair.mp (by simpa [validVariants] using hvar) with hv | hv
    · exact ⟨_, _, algorithm_fresh_fasttext p st hv hc, by simp [hc], by simp [hc]⟩
    · exact ⟨_, _, algorithm_fresh_nlpl p st hv hc, by simp [hc], by simp [hc]⟩

/-! ### Helper lemmas about the run loop -/

theorem embedWord_string (beh : BackendBehavior) (w : Word) :
    (embedWord beh w).string = w.string := rfl

theorem embedWord_idem (beh : BackendBehavior) (w : Word) :
    embedWord beh (embedWord beh w) = embedWord beh w := by
  cases w
  simp [embedWord]

theorem runLoop_fst (beh : BackendBehavior) (embLen : Option Nat)
    (hinv : embLen = none ∨ embLen = some beh.getEmbeddingLength) (ws : List Word) :
    (runLoop beh embLen ws).1 = ws.map (embedWord beh) := by
  induction ws generalizing embLen with
  | nil => simp [runLoop]
  | cons w ws ih =>
    have hL : (if pyFalsy embLen then some beh.getEmbeddingLength else embLen) =
        some beh.getEmbeddingLength := by
      rcases hinv with h | h <;> subst h
      · simp [pyFalsy]
      · by_cases h0 : beh.getEmbeddingLength = 0 <;> simp [pyFalsy, h0]
    simp only [runLoop, hL]
    rw [ih (some beh.getEmbeddingLength) (Or.inr rfl)]
    cases hv : beh.getWordVector w.string <;> simp [embedWord, hv]

theorem runLoop_lookupCalls (beh : BackendBehavior) (embLen : Option Nat) (ws : List Word) :
    (runLoop beh embLen ws).2.2.2 = ws.length := by
  induction ws generalizing embLen with
  | nil => simp [runLoop]
  | cons w ws ih =>
    simp [runLoop, ih]
    omega

theorem runLoop_lengthCalls_of_pos (beh : BackendBehavior)
    (hL : beh.getEmbeddingLength ≠ 0) (ws : List Word) :
    (runLoop beh (some beh.getEmbeddingLength) ws).2.2.1 = 0 := by
  induction ws with
  | nil => simp [runLoop]
  | cons w ws ih => simp [runLoop, pyFalsy, hL, ih]

theorem runLoop_lengthCalls_of_zero (beh : BackendBehavior)
    (hL : beh.getEmbeddingLength = 0) (embLen : Option Nat)
    (hfalsy : pyFalsy embLen = true) (ws : List Word) :
    (runLoop beh embLen ws).2.2.1 = ws.length := by
  induction ws generalizing embLen with
  | nil => simp [runLoop]
  | cons w ws ih =>
    simp only [runLoop, hfalsy, if_true]
    rw [ih (some beh.getEmbeddingLength) (by simp [pyFalsy, hL])]
    simp
    omega

theorem runLoop_lengthCalls_start (beh : BackendBehavior) (w : Word) (ws : List Word) :
    (runLoop beh none (w :: ws)).2.2.1 =
      (if beh.getEmbeddingLength = 0 then (w :: ws).length else 1) := by
  by_cases hL : beh.getEmbeddingLength = 0
  · simp [runLoop_lengthCalls_of_zero beh hL none rfl, hL]
  · simp only [runLoop, pyFalsy, if_true]
    rw [runLoop_lengthCalls_of_pos beh hL ws]
    simp [hL]

/-- Characterization of `run` for a supported variant: resolution succeeds,
every word is rewritten by `embedWord`, the mutated document becomes both
`input_doc` and `output_doc`, and the lookup count equals the word count. -/
theorem run_of_valid (beh : BackendBehavior) (p : EmbeddingsProcess) (st : ResolverState)
    (hvar : p.variant ∈ validVariants) :
    ∃ h st',
      EmbeddingsProcess.run beh p st =
        (Except.ok
          ({ p with
              cachedAlgorithm := some h
              input_doc := { p.input_doc with words := p.input_doc.words.map (embedWord beh) }
              output_doc := some { p.input_doc with words := p.input_doc.words.map (embedWord beh) } },
            ⟨(runLoop beh none p.input_doc.words).2.2.1, p.input_doc.words.length⟩), st') ∧
      st'.constructions = st.constructions + (if p.cachedAlgorithm = none then 1 else 0) := by
  obtain ⟨h, st', heq, hnext, hcon⟩ := algorithm_ok_of_valid p st hvar
  refine ⟨h, st', ?_, hcon⟩
  simp only [EmbeddingsProcess.run, heq]
  rw [runLoop_fst beh none (Or.inl rfl), runLoop_lookupCalls]

theorem wordnet_algorithm_cached (p : WordNetProcess) (st : ResolverState)
    (r : Option WordNetCorpusReader) (hc : p.cachedAlgorithm = some r) :
    WordNetProcess.algorithm p st = (r, p, st) := by
  simp [WordNetProcess.algorithm, hc]

theorem wordnet_algorithm_fresh (p : WordNetProcess) (st : ResolverState)
    (hc : p.cachedAlgorithm = none) :
    WordNetProcess.algorithm p st =
      ((computeWordNetAlgorithm p.language st).1,
       { p with cachedAlgorithm := some (computeWordNetAlgorithm p.language st).1 },
       (computeWordNetAlgorithm p.language st).2) := by
  simp [WordNetProcess.algorithm, hc]

/-- C3: for a supported `(language, variant)` pair, the backend constructor
runs at most once per process instance: the first access to `algorithm`
constructs and caches the handle, the second access returns the identical
handle without touching the resolver state, any cached access is the
identity, handles of distinct instances are distinct (never shared), and
the WordNet `algorithm` property is memoized the same way. -/
theorem algorithm_memoized (p q : EmbeddingsProcess) (wp : WordNetProcess)
    (st : ResolverState)
    (hvar : p.variant ∈ validVariants) (hcache : p.cachedAlgorithm = none)
    (hqvar : q.variant ∈ validVariants) (hqcache : q.cachedAlgorithm = none) :
    ∃ h st1,
      EmbeddingsProcess.algorithm p st =
        (Except.ok h, { p with cachedAlgorithm := some h }, st1) ∧
      EmbeddingsProcess.algorithm { p with cachedAlgorithm := some h } st1 =
        (Except.ok h, { p with cachedAlgorithm := some h }, st1) ∧
      st1.constructions = st.constructions + 1 ∧
      (∀ (r : EmbeddingsProcess) (st0 : ResolverState) (h0 : Handle),
        r.cachedAlgorithm = some h0 →
        EmbeddingsProcess.algorithm r st0 = (Except.ok h0, r, st0)) ∧
      (∃ h2 st2, EmbeddingsProcess.algorithm q st1 =
          (Except.ok h2, { q with cachedAlgorithm := some h2 }, st2) ∧
          Handle.hid h2 ≠ Handle.hid h) ∧
      (∃ r wp1 st', WordNetProcess.algorithm wp st = (r, wp1, st') ∧
        WordNetProcess.algorithm wp1 st' = (r, wp1, st')) := by
  have hwn : ∃ r wp1 st', WordNetProcess.algorithm wp st = (r, wp1, st') ∧
      WordNetProcess.algorithm wp1 st' = (r, wp1, st') := by
    cases hwc : wp.cachedAlgorithm with
    | some r0 =>
      exact ⟨r0, wp, st, wordnet_algorithm_cached wp st r0 hwc,
        wordnet_algorithm_cached wp st r0 hwc⟩
    | none =>
      refine ⟨_, _, _, wordnet_algorithm_fresh wp st hwc, ?_⟩
      exact wordnet_algorithm_cached _ _ _ rfl
  have hfirst : ∃ h st1,
      EmbeddingsProcess.algorithm p st =
        (Except.ok h, { p with cachedAlgorithm := some h }, st1) ∧
      Handle.hid h = st.nextId ∧ st1.nextId = st.nextId + 1 ∧
      st1.constructions = st.constructions + 1 := by
    rcases List.mem_pair.mp (by simpa [validVariants] using hvar) with hv | hv
    · exact ⟨_, _, algorithm_fresh_fasttext p st hv hcache, rfl, rfl, rfl⟩
    · exact ⟨_, _, algorithm_fresh_nlpl p st hv hcache, rfl, rfl, rfl⟩
  obtain ⟨h, st1, heq, hid, hnext, hcon⟩ := hfirst
  have hsecond : ∃ h2 st2, EmbeddingsProcess.algorithm q st1 =
      (Except.ok h2, { q with cachedAlgorithm := some h2 }, st2) ∧
      Handle.hid h2 ≠ Handle.hid h := by
    rcases List.mem_pair.mp (by simpa [validVariants] using hqvar) with hv | hv
    · refine ⟨_, _, algorithm_fresh_fasttext q st1 hv hqcache, ?_⟩
      show st1.nextId ≠ Handle.hid h
      rw [hnext, hid]
      omega
    · refine ⟨_, _, algorithm_fresh_nlpl q st1 hv hqcache, ?_⟩
      show st1.nextId ≠ Handle.hid h
      rw [hnext, hid]
      omega
  exact ⟨h, st1, heq, algorithm_cached _ _ _ rfl, hcon,
    fun r st0 h0 hc0 => algorithm_cached r st0 h0 hc0, hsecond, hwn⟩

theorem algorithm_memoized_witness :
    ∃ h st1,
      EmbeddingsProcess.algorithm sampleProcess {} =
        (Except.ok h, { sampleProcess with cachedAlgorithm := some h }, st1) ∧
      EmbeddingsProcess.algorithm { sampleProcess with cachedAlgorithm := some h } st1 =
        (Except.ok h, { sampleProcess with cachedAlgorithm := some h }, st1) ∧
      st1.constructions = ResolverState.constructions {} + 1 ∧
      (∀ (r : EmbeddingsProcess) (st0 : ResolverState) (h0 : Handle),
        r.cachedAlgorithm = some h0 →
        EmbeddingsProcess.algorithm r st0 = (Except.ok h0, r, st0)) ∧
      (∃ h2 st2, EmbeddingsProcess.algorithm
          ⟨sampleDoc, none, none, none, "nlpl", none⟩ st1 =
          (Except.ok h2,
           { (⟨sampleDoc, none, none, none, "nlpl", none⟩ : EmbeddingsProcess) with
              cachedAlgorithm := some h2 }, st2) ∧
          Handle.hid h2 ≠ Handle.hid h) ∧
      (∃ r wp1 st', WordNetProcess.algorithm ⟨sampleDoc, none, none, none, none⟩ {} =
          (r, wp1, st') ∧
        WordNetProcess.algorithm wp1 st' = (r, wp1, st')) :=
  algorithm_memoized sampleProcess ⟨sampleDoc, none, none, none, "nlpl", none⟩
    ⟨sampleDoc, none, none, none, none⟩ {} (by decide) rfl (by decide) rfl

/-- C4: for a variant outside the supported set, process construction
itself succeeds (it is a plain dataclass), but the first access to the
`algorithm` property fails with a `CLTKException` whose message contains the
offending variant and names `fasttext` and `nlpl`; `run` propagates exactly
that error, and a process with a supported variant never raises it. -/
theorem algorithm_invalid_variant (p : EmbeddingsProcess) (st : ResolverState)
    (hvar : p.variant ∉ validVariants) (hcache : p.cachedAlgorithm = none) :
    (EmbeddingsProcess.mk p.input_doc p.output_doc p.description p.language
        p.variant p.cachedAlgorithm).variant = p.variant ∧
    ∃ e, EmbeddingsProcess.algorithm p st = (Except.error e, p, st) ∧
      strOccurs p.variant e ∧ strOccurs "fasttext" e ∧ strOccurs "nlpl" e ∧
      (∀ beh, (EmbeddingsProcess.run beh p st).1 = Except.error e) ∧
      (∀ (q : EmbeddingsProcess) (st2 : ResolverState), q.variant ∈ validVariants →
        (EmbeddingsProcess.algorithm q st2).1 ≠ Except.error e) := by
  have hf : ¬(p.variant = "fasttext") := fun h => hvar (by simp [validVariants, h])
  have hn : ¬(p.variant = "nlpl") := fun h => hvar (by simp [validVariants, h])
  have halg : EmbeddingsProcess.algorithm p st =
      (Except.error ("Invalid embeddings ``variant`` ``" ++ p.variant ++
        "``. Available: '" ++ String.intercalate "', '" validVariants ++ "'."), p, st) := by
    simp [EmbeddingsProcess.algorithm, computeAlgorithm, hcache, hf, hn]
  refine ⟨rfl, _, halg, ?_, ?_, ?_, ?_, ?_⟩
  · refine ⟨"Invalid embeddings ``variant`` ``",
      "``. Available: 'fasttext', 'nlpl'.", ?_⟩
    simp [String.append_assoc]
    rfl
  · refine ⟨"Invalid embeddings ``variant`` ``" ++ p.variant ++ "``. Available: '",
      "', 'nlpl'.", ?_⟩
    simp [String.append_assoc]
    rfl
  · refine ⟨"Invalid embeddings ``variant`` ``" ++ p.variant ++
      "``. Available: 'fasttext', '", "'.", ?_⟩
    simp [String.append_assoc]
    rfl
  · intro beh
    simp [EmbeddingsProcess.run, halg]
  · intro q st2 hq
    obtain ⟨h, st', heq, -, -⟩ := algorithm_ok_of_valid q st2 hq
    simp [heq]

theorem algorithm_invalid_variant_witness :
    ∃ e, EmbeddingsProcess.algorithm
        { input_doc := sampleDoc, variant := "nonexistent" } {} =
        (Except.error e, { input_doc := sampleDoc, variant := "nonexistent" }, {}) ∧
      strOccurs "nonexistent" e ∧ strOccurs "fasttext" e ∧ strOccurs "nlpl" e := by
  obtain ⟨-, e, h1, h2, h3, h4, -, -⟩ :=
    algorithm_invalid_variant { input_doc := sampleDoc, variant := "nonexistent" } {}
      (by decide) rfl
  exact ⟨e, h1, h2, h3, h4⟩

/-- C5: the WordNet `algorithm` property resolves `"lat"` to a reader built
with code `"lat"`, `"grc"` to code `"grk"`, `"san"` to code `"skt"`, any
other language to no handle (without an error), and `run` mutates
nothing. -/
theorem wordnet_resolution (p : WordNetProcess) (st : ResolverState)
    (hcache : p.cachedAlgorithm = none) :
    (p.language = some "lat" →
      ∃ r, (WordNetProcess.algorithm p st).1 = some r ∧ r.code = "lat") ∧
    (p.language = some "grc" →
      ∃ r, (WordNetProcess.algorithm p st).1 = some r ∧ r.code = "grk") ∧
    (p.language = some "san" →
      ∃ r, (WordNetProcess.algorithm p st).1 = some r ∧ r.code = "skt") ∧
    (p.language ∉ [some "lat", some "grc", some "san"] →
      (WordNetProcess.algorithm p st).1 = none) ∧
    WordNetProcess.run p = p := by
  rw [wordnet_algorithm_fresh p st hcache]
  refine ⟨?_, ?_, ?_, ?_, rfl⟩
  · intro hl
    exact ⟨⟨st.nextId, "lat"⟩, by simp [computeWordNetAlgorithm, hl], rfl⟩
  · intro hl
    exact ⟨⟨st.nextId, "grk"⟩, by simp [computeWordNetAlgorithm, hl], rfl⟩
  · intro hl
    exact ⟨⟨st.nextId, "skt"⟩, by simp [computeWordNetAlgorithm, hl], rfl⟩
  · intro hl
    have h1 : ¬(p.language = some "lat") := fun h => hl (by simp [h])
    have h2 : ¬(p.language = some "grc") := fun h => hl (by simp [h])
    have h3 : ¬(p.language = some "san") := fun h => hl (by simp [h])
    simp [computeWordNetAlgorithm, h1, h2, h3]

theorem wordnet_resolution_witness :
    (∃ r, (WordNetProcess.algorithm
        (⟨sampleDoc, none, none, some "lat", none⟩ : WordNetProcess) {}).1 =
        some r ∧ r.code = "lat") ∧
    (WordNetProcess.algorithm
        (⟨sampleDoc, none, none, some "xyz", none⟩ : WordNetProcess) {}).1 = none ∧
    WordNetProcess.run (⟨sampleDoc, none, none, some "lat", none⟩ : WordNetProcess) =
      (⟨sampleDoc, none, none, some "lat", none⟩ : WordNetProcess) := by
  obtain ⟨h1, -, -, -, h5⟩ :=
    wordnet_resolution (⟨sampleDoc, none, none, some "lat", none⟩ : WordNetProcess) {} rfl
  obtain ⟨-, -, -, h4, -⟩ :=
    wordnet_resolution (⟨sampleDoc, none, none, some "xyz", none⟩ : WordNetProcess) {} rfl
  exact ⟨h1 rfl, h4 (by decide), h5⟩

/-- C1: with a backend returning a valid vector of length `L` for every
token, `run` succeeds, writes onto each token exactly the vector the
backend returned for its string (all of length `L`), keeps the tokens in
their original order, and the mutated document becomes `output_doc`. -/
theorem run_all_hits (beh : BackendBehavior) (p : EmbeddingsProcess)
    (st : ResolverState) (L : Nat)
    (hvar : p.variant ∈ validVariants)
    (hall : ∀ w ∈ p.input_doc.words,
      ∃ v, beh.getWordVector w.string = some v ∧ v.length = L) :
    ∃ p' tr st', EmbeddingsProcess.run beh p st = (Except.ok (p', tr), st') ∧
      p'.output_doc = some p'.input_doc ∧
      List.Forall₂ (fun w w' : Word => w'.string = w.string ∧
          ∃ v, beh.getWordVector w.string = some v ∧ w'.embedding = some v ∧ v.length = L)
        p.input_doc.words p'.input_doc.words := by
  obtain ⟨h, st', heq, -⟩ := run_of_valid beh p st hvar
  have hfa : List.Forall₂ (fun w w' : Word => w'.string = w.string ∧
      ∃ v, beh.getWordVector w.string = some v ∧ w'.embedding = some v ∧ v.length = L)
      p.input_doc.words (p.input_doc.words.map (embedWord beh)) := by
    rw [List.forall₂_map_right_iff, List.forall₂_same]
    intro w hw
    obtain ⟨v, hv, hL⟩ := hall w hw
    exact ⟨rfl, v, hv, by simp [embedWord, hv], hL⟩
  exact ⟨_, _, st', heq, rfl, hfa⟩

theorem run_all_hits_witness :
    ∃ p' tr st', EmbeddingsProcess.run hitBeh sampleProcess {} =
        (Except.ok (p', tr), st') ∧
      p'.output_doc = some p'.input_doc ∧
      List.Forall₂ (fun w w' : Word => w'.string = w.string ∧
          ∃ v, hitBeh.getWordVector w.string = some v ∧ w'.embedding = some v ∧
            v.length = 2)
        sampleProcess.input_doc.words p'.input_doc.words :=
  run_all_hits hitBeh sampleProcess {} 2 (by decide)
    (fun w _ => ⟨[1, 0], rfl, rfl⟩)

/-- C2: `run` never surfaces a lookup miss as an error: whenever the
backend's lookup for a token is not a numeric array, that token receives a
zero vector of the backend's reported length, while each token whose
lookup succeeded keeps exactly the returned vector. -/
theorem run_miss_zero_fill (beh : BackendBehavior) (p : EmbeddingsProcess)
    (st : ResolverState) (hvar : p.variant ∈ validVariants) :
    ∃ p' tr st', EmbeddingsProcess.run beh p st = (Except.ok (p', tr), st') ∧
      List.Forall₂ (fun w w' : Word => w'.string = w.string ∧
          (beh.getWordVector w.string = none →
            w'.embedding = some (List.replicate beh.getEmbeddingLength 0)) ∧
          (∀ v, beh.getWordVector w.string = some v → w'.embedding = some v))
        p.input_doc.words p'.input_doc.words := by
  obtain ⟨h, st', heq, -⟩ := run_of_valid beh p st hvar
  have hfa : List.Forall₂ (fun w w' : Word => w'.string = w.string ∧
      (beh.getWordVector w.string = none →
        w'.embedding = some (List.replicate beh.getEmbeddingLength 0)) ∧
      (∀ v, beh.getWordVector w.string = some v → w'.embedding = some v))
      p.input_doc.words (p.input_doc.words.map (embedWord beh)) := by
    rw [List.forall₂_map_right_iff, List.forall₂_same]
    intro w _
    refine ⟨rfl, ?_, ?_⟩
    · intro hnone
      simp [embedWord, hnone]
    · intro v hv
      simp [embedWord, hv]
  exact ⟨_, _, st', heq, hfa⟩

theorem run_miss_zero_fill_witness :
    ∃ p' tr st', EmbeddingsProcess.run sampleBeh sampleProcess {} =
        (Except.ok (p', tr), st') ∧
      List.Forall₂ (fun w w' : Word => w'.string = w.string ∧
          (sampleBeh.getWordVector w.string = none →
            w'.embedding = some (List.replicate sampleBeh.getEmbeddingLength 0)) ∧
          (∀ v, sampleBeh.getWordVector w.string = some v → w'.embedding = some v))
        sampleProcess.input_doc.words p'.input_doc.words :=
  run_miss_zero_fill sampleBeh sampleProcess {} (by decide)

/-- C6: `run` only mutates the word records of the bound document: after it,
`output_doc` is that (mutated) document itself, the raw text, the word
strings, and the word count are unchanged, and the configuration fields of
the process are untouched. -/
theorem run_frame (beh : BackendBehavior) (p : EmbeddingsProcess)
    (st : ResolverState) (hvar : p.variant ∈ validVariants) :
    ∃ p' tr st', EmbeddingsProcess.run beh p st = (Except.ok (p', tr), st') ∧
      p'.output_doc = some p'.input_doc ∧
      p'.input_doc.raw = p.input_doc.raw ∧
      p'.input_doc.words.map Word.string = p.input_doc.words.map Word.string ∧
      p'.input_doc.words.length = p.input_doc.words.length ∧
      p'.language = p.language ∧ p'.variant = p.variant ∧
      p'.description = p.description := by
  obtain ⟨h, st', heq, -⟩ := run_of_valid beh p st hvar
  refine ⟨_, _, st', heq, rfl, rfl, ?_, ?_, rfl, rfl, rfl⟩
  · show (p.input_doc.words.map (embedWord beh)).map Word.string =
      p.input_doc.words.map Word.string
    simp [List.map_map, Function.comp, embedWord_string]
  · show (p.input_doc.words.map (embedWord beh)).length = p.input_doc.words.length
    simp

theorem run_frame_witness :
    ∃ p' tr st', EmbeddingsProcess.run sampleBeh sampleProcess {} =
        (Except.ok (p', tr), st') ∧
      p'.output_doc = some p'.input_doc ∧
      p'.input_doc.raw = sampleProcess.input_doc.raw ∧
      p'.input_doc.words.map Word.string =
        sampleProcess.input_doc.words.map Word.string ∧
      p'.input_doc.words.length = sampleProcess.input_doc.words.length ∧
      p'.language = sampleProcess.language ∧ p'.variant = sampleProcess.variant ∧
      p'.description = sampleProcess.description :=
  run_frame sampleBeh sampleProcess {} (by decide)

theorem map_embedWord_idem (beh : BackendBehavior) (ws : List Word) :
    (ws.map (embedWord beh)).map (embedWord beh) = ws.map (embedWord beh) := by
  induction ws with
  | nil => rfl
  | cons w ws ih => simp [ih, embedWord_idem]

/-- C7: with a deterministic backend, running `run` twice produces the same
per-token vectors both times: after the second run the document (and hence
every token's embedding) is exactly what the first run produced. -/
theorem run_idempotent (beh : BackendBehavior) (p : EmbeddingsProcess)
    (st : ResolverState) (hvar : p.variant ∈ validVariants) :
    ∃ p1 tr1 st1 p2 tr2 st2,
      EmbeddingsProcess.run beh p st = (Except.ok (p1, tr1), st1) ∧
      EmbeddingsProcess.run beh p1 st1 = (Except.ok (p2, tr2), st2) ∧
      p2.input_doc = p1.input_doc ∧ p2.output_doc = p1.output_doc ∧
      p2.input_doc.words.map Word.embedding =
        p1.input_doc.words.map Word.embedding := by
  obtain ⟨h, st1, heq1, -⟩ := run_of_valid beh p st hvar
  obtain ⟨h2, st2, heq2, -⟩ := run_of_valid beh
    ({ p with
        cachedAlgorithm := some h
        input_doc := { p.input_doc with words := p.input_doc.words.map (embedWord beh) }
        output_doc := some { p.input_doc with words := p.input_doc.words.map (embedWord beh) } })
    st1 hvar
  have hD : ({ p.input_doc with
      words := (p.input_doc.words.map (embedWord beh)).map (embedWord beh) } : Doc) =
      { p.input_doc with words := p.input_doc.words.map (embedWord beh) } := by
    rw [map_embedWord_idem]
  refine ⟨_, _, st1, _, _, st2, heq1, heq2, ?_, ?_, ?_⟩
  · exact hD
  · show some _ = some _
    rw [hD]
  · rw [show ({ p.input_doc with
        words := p.input_doc.words.map (embedWord beh) } : Doc).words.map (embedWord beh) =
        (p.input_doc.words.map (embedWord beh)).map (embedWord beh) from rfl,
      map_embedWord_idem]

theorem run_idempotent_witness :
    ∃ p1 tr1 st1 p2 tr2 st2,
      EmbeddingsProcess.run sampleBeh sampleProcess {} = (Except.ok (p1, tr1), st1) ∧
      EmbeddingsProcess.run sampleBeh p1 st1 = (Except.ok (p2, tr2), st2) ∧
      p2.input_doc = p1.input_doc ∧ p2.output_doc = p1.output_doc ∧
      p2.input_doc.words.map Word.embedding =
        p1.input_doc.words.map Word.embedding :=
  run_idempotent sampleBeh sampleProcess {} (by decide)

/-- C8 counterexample: on a two-token document with a backend reporting
vector length `0`, one `run` invokes `get_embedding_length` twice, not
once — `if not embedding_length` treats the cached `0` as unset (Python
falsiness), so the query is not cached for the remainder of the call. -/
theorem run_length_query_cex :
    (EmbeddingsProcess.run zeroLenBeh sampleProcess {}).1.map Prod.snd =
      Except.ok (⟨2, 2⟩ : RunTrace) ∧
    ((⟨2, 2⟩ : RunTrace).lengthCalls = 1 → False) := by
  constructor
  · rfl
  · intro hcontra
    simp at hcontra

/-- C8 amended: during one `run` on a non-empty document the vector-length
query is invoked exactly once provided the backend reports a nonzero
length; if the backend reports `0`, the falsy cached value causes the query
to be re-invoked at every token, i.e. once per word. -/
theorem run_length_query_count (beh : BackendBehavior) (p : EmbeddingsProcess)
    (st : ResolverState) (hvar : p.variant ∈ validVariants)
    (hne : p.input_doc.words ≠ []) :
    ∃ p' tr st', EmbeddingsProcess.run beh p st = (Except.ok (p', tr), st') ∧
      tr.lengthCalls =
        (if beh.getEmbeddingLength = 0 then p.input_doc.words.length else 1) := by
  obtain ⟨h, st', heq, -⟩ := run_of_valid beh p st hvar
  refine ⟨_, _, st', heq, ?_⟩
  show (runLoop beh none p.input_doc.words).2.2.1 = _
  cases hws : p.input_doc.words with
  | nil => exact absurd hws hne
  | cons w ws => rw [runLoop_lengthCalls_start]

theorem run_length_query_count_witness :
    ∃ p' tr st', EmbeddingsProcess.run sampleBeh sampleProcess {} =
        (Except.ok (p', tr), st') ∧
      tr.lengthCalls =
        (if sampleBeh.getEmbeddingLength = 0
         then sampleProcess.input_doc.words.length else 1) :=
  run_length_query_count sampleBeh sampleProcess {} (by decide) (by decide)

/-- C10: on a document with no words, `run` succeeds, performs no vector
lookup and no vector-length query, leaves the document unchanged (setting
`output_doc` to it), and still resolves and constructs the backend
handle. -/
theorem run_empty_doc (beh : BackendBehavior) (p : EmbeddingsProcess)
    (st : ResolverState) (hvar : p.variant ∈ validVariants)
    (hcache : p.cachedAlgorithm = none) (hempty : p.input_doc.words = []) :
    ∃ h st', EmbeddingsProcess.run beh p st =
        (Except.ok ({ p with
            cachedAlgorithm := some h
            output_doc := some p.input_doc }, ⟨0, 0⟩), st') ∧
      st'.constructions = st.constructions + 1 := by
  obtain ⟨h, st', heq, hcon⟩ := run_of_valid beh p st hvar
  have hd : ({ p.input_doc with words := p.input_doc.words.map (embedWord beh) } : Doc) =
      p.input_doc := by
    cases hpd : p.input_doc with
    | mk raw ws =>
      have : ws = [] := by rw [← hempty, hpd]
      simp [this]
  refine ⟨h, st', ?_, by simpa [hcache] using hcon⟩
  rw [heq, hd]
  have hlen : (runLoop beh none p.input_doc.words).2.2.1 = 0 := by
    rw [hempty]
    rfl
  have hlook : p.input_doc.words.length = 0 := by rw [hempty]; rfl
  rw [hlen, hlook]

theorem run_empty_doc_witness :
    ∃ h st', EmbeddingsProcess.run sampleBeh
        ({ input_doc := {} } : EmbeddingsProcess) {} =
        (Except.ok ({ ({ input_doc := {} } : EmbeddingsProcess) with
            cachedAlgorithm := some h
            output_doc := some ({} : Doc) }, ⟨0, 0⟩), st') ∧
      st'.constructions = ResolverState.constructions {} + 1 :=
  run_empty_doc sampleBeh ({ input_doc := {} } : EmbeddingsProcess) {}
    (by decide) rfl rfl

/-- C9: every preset is a pure configuration over the base process (fresh
input document, no output, no cached handle, fixed `language`); exactly one
preset, Greek, overrides `variant` to `"nlpl"` while all others keep the
default `"fasttext"`; and the Aramaic and Arabic presets carry the same
language code `"arb"`. -/
theorem embeddings_presets_spec (d : Doc) :
    (ArabicEmbeddingsProcess d).language = some "arb" ∧
    (AramaicEmbeddingsProcess d).language = some "arb" ∧
    (AramaicEmbeddingsProcess d).language = (ArabicEmbeddingsProcess d).language ∧
    (GothicEmbeddingsProcess d).language = some "got" ∧
    (GreekEmbeddingsProcess d).language = some "grc" ∧
    (LatinEmbeddingsProcess d).language = some "lat" ∧
    (OldEnglishEmbeddingsProcess d).language = some "ang" ∧
    (PaliEmbeddingsProcess d).language = some "pli" ∧
    (SanskritEmbeddingsProcess d).language = some "san" ∧
    (GreekEmbeddingsProcess d).variant = "nlpl" ∧
    (ArabicEmbeddingsProcess d).variant = "fasttext" ∧
    (AramaicEmbeddingsProcess d).variant = "fasttext" ∧
    (GothicEmbeddingsProcess d).variant = "fasttext" ∧
    (LatinEmbeddingsProcess d).variant = "fasttext" ∧
    (OldEnglishEmbeddingsProcess d).variant = "fasttext" ∧
    (PaliEmbeddingsProcess d).variant = "fasttext" ∧
    (SanskritEmbeddingsProcess d).variant = "fasttext" ∧
    (ArabicEmbeddingsProcess d).input_doc = d ∧
    (AramaicEmbeddingsProcess d).input_doc = d ∧
    (GothicEmbeddingsProcess d).input_doc = d ∧
    (GreekEmbeddingsProcess d).input_doc = d ∧
    (LatinEmbeddingsProcess d).input_doc = d ∧
    (OldEnglishEmbeddingsProcess d).input_doc = d ∧
    (PaliEmbeddingsProcess d).input_doc = d ∧
    (SanskritEmbeddingsProcess d).input_doc = d ∧
    (ArabicEmbeddingsProcess d).output_doc = none ∧
    (AramaicEmbeddingsProcess d).output_doc = none ∧
    (GothicEmbeddingsProcess d).output_doc = none ∧
    (GreekEmbeddingsProcess d).output_doc = none ∧
    (LatinEmbeddingsProcess d).output_doc = none ∧
    (OldEnglishEmbeddingsProcess d).output_doc = none ∧
    (PaliEmbeddingsProcess d).output_doc = none ∧
    (SanskritEmbeddingsProcess d).output_doc = none ∧
    (ArabicEmbeddingsProcess d).cachedAlgorithm = none ∧
    (AramaicEmbeddingsProcess d).cachedAlgorithm = none ∧
    (GothicEmbeddingsProcess d).cachedAlgorithm = none ∧
    (GreekEmbeddingsProcess d).cachedAlgorithm = none ∧
    (LatinEmbeddingsProcess d).cachedAlgorithm = none ∧
    (OldEnglishEmbeddingsProcess d).cachedAlgorithm = none ∧
    (PaliEmbeddingsProcess d).cachedAlgorithm = none ∧
    (SanskritEmbeddingsProcess d).cachedAlgorithm = none := by
  refine ⟨rfl, rfl, rfl, rfl, rfl, rfl, rfl, rfl, rfl, rfl, rfl, rfl, rfl, rfl,
    rfl, rfl, rfl, rfl, rfl, rfl, rfl, rfl, rfl, rfl, rfl, rfl, rfl, rfl, rfl,
    rfl, rfl, rfl, rfl, rfl, rfl, rfl, rfl, rfl, rfl, rfl, rfl⟩
